import Mathlib

/-!
Verification of the rPath XML library (`xmllib.py`, with its duplicated copy
`rpath_common/xmllib/api1.py`) against its natural-language specification.

The Python module is shallowly embedded: pure helper functions become Lean
functions, the SAX-event-driven construction handler becomes an explicit
state machine over an event list, the seekable input stream becomes a
(content, position) pair, and the filesystem probed by schema resolution
becomes a lookup function from directory names to optional listings.
Python exceptions become an explicit error type threaded through `Except`.
-/

namespace RpathXml

/-- Errors of the library; mirrors the exception classes of `xmllib.py`.
`unknownSchema` corresponds to `UnknownSchemaError` (a subclass of
`SchemaValidationError` in the source), `schemaValidation` to a plain
`SchemaValidationError`, `invalidXML` to `InvalidXML`, `undefinedNamespace`
to `UndefinedNamespaceError` (carrying the offending alias), and
`assertionError` / `indexError` to the corresponding Python runtime errors
(the `assert` in `BindingHandler._handleEndElement` and out-of-range list
accesses on an empty handler stack). -/
inductive XErr where
  | undefinedNamespace (nsAlias : String)
  | invalidXML
  | unknownSchema
  | schemaValidation
  | assertionError
  | indexError
deriving DecidableEq, Repr

/-- `DataBinder.xmlBaseNamespace` from the source. -/
def xmlBaseNamespace : String := "http://www.w3.org/XML/1998/namespace"

/-- `DataBinder.xmlSchemaNamespace` from the source. -/
def xmlSchemaNamespace : String := "http://www.w3.org/2001/XMLSchema-instance"

/-- Break a character list at the first `:`; `none` when there is no
colon.  Implements Python's `tag.split(':', 1)`. -/
def breakOnColon : List Char → Option (List Char × List Char)
  | [] => none
  | c :: rest =>
    if c = ':' then some ([], rest)
    else
      match breakOnColon rest with
      | none => none
      | some (a, b) => some (c :: a, b)

/-- `splitNamespace(tag)` from the source: split on the first `:`; if there
is no colon the namespace part is `none`.  (Python: `tag.split(':', 1)`.) -/
def splitNamespace (tag : String) : Option String × String :=
  match breakOnColon tag.data with
  | none => (none, tag)
  | some (a, b) => (some ⟨a⟩, ⟨b⟩)

/-- `unsplitNamespace(name, namespace)` from the source: qualify `name`
with the alias, identity when the alias is `none`. -/
def unsplitNamespace (name : String) (ns : Option String := none) : String :=
  match ns with
  | none => name
  | some nsName => nsName ++ ":" ++ name

/-- Python's whitespace test used by `str.strip()` / `str.split()`. -/
def pyIsSpace (c : Char) : Bool :=
  c = ' ' || c = '\t' || c = '\n' || c = '\r' || c = '\x0b' || c = '\x0c'

/-- Python's `str.strip()`: remove leading and trailing whitespace. -/
def pyStrip (s : String) : String :=
  ⟨((s.data.dropWhile pyIsSpace).reverse.dropWhile pyIsSpace).reverse⟩

/-- Python's `str.upper()` on one character, restricted to ASCII (the only
case the library's boolean parsing distinguishes). -/
def pyCharUpper (c : Char) : Char :=
  if 97 ≤ c.toNat ∧ c.toNat ≤ 122 then Char.ofNat (c.toNat - 32) else c

/-- Python's `str.upper()` (ASCII). -/
def pyUpper (s : String) : String :=
  ⟨s.data.map pyCharUpper⟩

/-- `BooleanNode.fromString` from the source:
`stringVal.strip().upper() in ('TRUE', '1')`.  (The `isinstance(_, bool)`
shortcut of the source is a dynamic-typing artifact with no counterpart
for a `String` argument.) -/
def BooleanNode.fromString (stringVal : String) : Bool :=
  pyUpper (pyStrip stringVal) = "TRUE" || pyUpper (pyStrip stringVal) = "1"

/-- `BooleanNode.toString` from the source: `boolVal and "true" or "false"`. -/
def BooleanNode.toString (boolVal : Bool) : String :=
  if boolVal then "true" else "false"

/-- `os.path.basename` (POSIX): everything after the last `/`. -/
def basename (p : String) : String :=
  ⟨p.data.foldl (fun acc c => if c = '/' then [] else acc ++ [c]) []⟩

/-- `os.path.join(a, b)` (POSIX, two arguments). -/
def pathJoin (a b : String) : String :=
  if b.data.head? = some '/' then b
  else if a = "" then b
  else if a.data.getLast? = some '/' then a ++ b
  else a ++ "/" ++ b

/-- Accumulating pass behind `pySplitWhitespace`: `cur` is the current
word, reversed. -/
def pyWordsAux (cur : List Char) : List Char → List (List Char)
  | [] => if cur = [] then [] else [cur.reverse]
  | c :: rest =>
    if pyIsSpace c then
      if cur = [] then pyWordsAux [] rest else cur.reverse :: pyWordsAux [] rest
    else pyWordsAux (c :: cur) rest

/-- Python's `str.split()` with no arguments: split on runs of whitespace,
dropping empty pieces. -/
def pySplitWhitespace (s : String) : List String :=
  (pyWordsAux [] s.data).map (fun w => ⟨w⟩)

/-- `DataBinder.chooseSchemaFile(schemaFiles, schemaDir)` from the source.
The filesystem is embedded as `fs : String → Option (List String)`:
`fs dir = none` when `os.path.isdir(dir)` is false (the directory does not
exist or is not a directory), otherwise `some` of `os.listdir(dir)`.
`schemaDir = none` embeds Python's `schemaDir is None`.
`possibleSchema` embeds `set(schemaFiles).intersection(localFiles)`; the
final loop returns the first candidate of `schemaFiles` present in it.
If the loop falls through (impossible: `possibleSchema` was checked
nonempty) Python implicitly returns `None`, embedded as `.ok none`. -/
def chooseSchemaFile (fs : String → Option (List String))
    (schemaFiles : List String) (schemaDir : Option String) :
    Except XErr (Option String) :=
  match schemaDir with
  | none => .error .unknownSchema
  | some dir =>
    match fs dir with
    | none => .error .unknownSchema
    | some localFiles =>
      let possibleSchema := schemaFiles.filter (fun x => decide (x ∈ localFiles))
      if possibleSchema = [] then .error .unknownSchema
      else
        match schemaFiles.find? (fun sch => decide (sch ∈ possibleSchema)) with
        | some sch => .ok (some (pathJoin dir sch))
        | none => .ok none

/-! ### Seekable streams and the `DataBinder` parse/validate entry points

A seekable input stream is embedded as its full contents plus a read
position.  Reading consumes from the current position to the end of the
stream; `seek`/`tell` manipulate the position. -/

/-- A seekable stream: contents plus current read position. -/
structure Stream where
  content : String
  pos : Nat
deriving DecidableEq, Repr

/-- The unread suffix of a stream (what a full read from the current
position returns).  The position counts characters of the content. -/
def Stream.rest (st : Stream) : String :=
  ⟨st.content.data.drop st.pos⟩

/-- `stream.seek(n)`. -/
def Stream.seek (st : Stream) (n : Nat) : Stream :=
  { st with pos := n }

/-- A stream whose contents have been read to the end (position at EOF). -/
def Stream.consume (st : Stream) : Stream :=
  { st with pos := st.content.length }

/-- `DataBinder.getSchemaLocationsFromStream(stream)` from the source.

The out-of-scope character-level parse performed by `ToplevelNode` is
abstracted by `sniff : String → Option (String × Option String)`:
applied to the unread suffix of the stream it returns `none` when no
start tag could be extracted (`tn.name is None`), else the top-level
tag name together with the value of the `schemaLocation` attribute in
the XML-schema namespace (`none` when that attribute is absent).
`ToplevelNode` consumes the stream; the source saves `stream.tell()`
before the probe and seeks back to it afterwards. -/
def getSchemaLocationsFromStream (sniff : String → Option (String × Option String))
    (st : Stream) : Except XErr (List String) × Stream :=
  let pos := st.pos
  let st1 := st.consume
  let st2 := st1.seek pos
  match sniff st.rest with
  | none => (.error .invalidXML, st2)
  | some (_, none) => (.error .unknownSchema, st2)
  | some (_, some schemaLocation) =>
    (.ok ((pySplitWhitespace schemaLocation).map basename), st2)

/-- `DataBinder.validate(stream, schemaDir)` from the source.  The
out-of-scope schema engine (`etree.XMLSchema` + `schema.validate`) is
abstracted by `sval : Option String → String → Bool` taking the chosen
schema file and the document text read by `etree.parse(stream)` (which
consumes the stream from its current position). -/
def validate (sniff : String → Option (String × Option String))
    (fs : String → Option (List String)) (sval : Option String → String → Bool)
    (schemaDir : Option String) (st : Stream) : Except XErr Unit × Stream :=
  match getSchemaLocationsFromStream sniff st with
  | (.error e, st1) => (.error e, st1)
  | (.ok validSchema, st1) =>
    match chooseSchemaFile fs validSchema schemaDir with
    | .error e => (.error e, st1)
    | .ok schemaFile =>
      let st2 := st1.consume
      if sval schemaFile st1.rest then (.ok (), st2)
      else (.error .schemaValidation, st2)

/-- The body of `DataBinder._parse(stream)` as far as the stream is
concerned: the SAX parser reads the stream from its current position to
the end and the handler produces either a root object or an error.  The
handler's behaviour on the text is abstracted by
`pf : String → Except XErr ρ`. -/
def runMainParse (pf : String → Except XErr ρ) (st : Stream) :
    Except XErr ρ × Stream :=
  (pf st.rest, st.consume)

/-- `DataBinder.parseFile(stream, validate, schemaDir)` from the source:

    origPos = stream.tell()
    try:
        if validate:
            stream.seek(0)
            self.validate(stream, schemaDir = schemaDir)
        stream.seek(0)
        return self._parse(stream)
    finally:
        stream.seek(origPos)
-/
def parseFile (sniff : String → Option (String × Option String))
    (fs : String → Option (List String)) (sval : Option String → String → Bool)
    (pf : String → Except XErr ρ)
    (doValidate : Bool) (schemaDir : Option String) (st : Stream) :
    Except XErr ρ × Stream :=
  let origPos := st.pos
  let inner : Except XErr ρ × Stream :=
    if doValidate then
      match validate sniff fs sval schemaDir (st.seek 0) with
      | (.error e, st1) => (.error e, st1)
      | (.ok _, st1) => runMainParse pf (st1.seek 0)
    else
      runMainParse pf (st.seek 0)
  (inner.1, inner.2.seek origPos)

/-! ### Association lists with Python-dict semantics

Python dicts are embedded as association lists where insertion overwrites
the existing binding for a key (so each key occurs at most once in lists
built by `alistInsert`). -/

/-- Dict lookup. -/
def alistLookup [DecidableEq κ] (k : κ) : List (κ × ν) → Option ν
  | [] => none
  | (k', v) :: rest => if k' = k then some v else alistLookup k rest

/-- Dict insertion (`d[k] = v`): overwrite the binding if present,
append otherwise. -/
def alistInsert [DecidableEq κ] (k : κ) (v : ν) : List (κ × ν) → List (κ × ν)
  | [] => [(k, v)]
  | (k', v') :: rest =>
    if k' = k then (k, v) :: rest else (k', v') :: alistInsert k v rest

/-- Dict membership (`k in d`). -/
def alistHasKey [DecidableEq κ] (k : κ) (l : List (κ × ν)) : Bool :=
  (alistLookup k l).isSome

/-- A namespace map: alias (or `none` for the default namespace) → URI.
Mirrors the `_nsMap` dict of the source. -/
abbrev NsMap := List (Option String × String)

/-- `_otherAttributes`: (alias-or-none, local name) → value. -/
abbrev OtherAttrs := List ((Option String × String) × String)

/-! ### The node model -/

/-- Which leaf/value variant a node class is; encodes the subclasses
`GenericNode`, `IntegerNode`, `StringNode`, `BooleanNode`, `NullNode`. -/
inductive NodeKind where
  | generic
  | integer
  | stringK
  | boolean
  | null
deriving DecidableEq, Repr

/-- The class-level data of a registered node class: its finalize variant,
its `_singleChildren` list, its `_childOrder` list (absent unless the class
declares one) and, for the streaming variant, its `WillYield` marker. -/
structure NodeClass where
  kind : NodeKind
  singleChildren : List String
  childOrder : Option (List String)
  willYield : Bool
deriving DecidableEq, Repr

/-- `GenericNode` (the default class used for unregistered tags). -/
def genericClass : NodeClass :=
  { kind := .generic, singleChildren := [], childOrder := none, willYield := false }

/-- The instance data of an `_AbstractNode`, parameterized by the type of
children items so the node type can be tied into a nested inductive. -/
structure NodeData (item : Type) where
  name : Option String × String
  nsMap : NsMap
  nsAttributes : NsMap
  otherAttributes : OtherAttrs
  children : List item
  cls : NodeClass
  fields : List (String × item)
deriving DecidableEq, Repr

/-- A child slot of a node, or a finalized node value: Python stores either
unicode text runs or the result of `childNode.finalize()` in `_children`.
A finalized `StringNode` is itself a Python string, so it lands in the same
constructor as a text run (`str`), exactly as in the source, where
`isinstance(x, unicode)` cannot tell the two apart. -/
inductive Item where
  | str (s : String)
  | intVal (i : Int)
  | boolVal (b : Bool)
  | nullVal
  | node (d : NodeData Item)

/-- A node during/after construction. -/
abbrev Node := NodeData Item

/-- `setName(name)` from the source: resolve the alias against the node's
namespace map; an unresolvable alias raises `UndefinedNamespaceError`. -/
def setName (nsMap : NsMap) (name : String) : Except XErr (Option String × String) :=
  match splitNamespace name with
  | (none, tagName) => .ok (none, tagName)
  | (some nsName, tagName) =>
    if alistHasKey (some nsName) nsMap then .ok (some nsName, tagName)
    else .error (.undefinedNamespace nsName)

/-- `getName()` from the source. -/
def getName (n : Node) : String :=
  unsplitNamespace n.name.2 n.name.1

/-- Intermediate state of the first loop of `_setAttributes`: the namespace
map and local declarations accumulated so far, plus the non-declaration
attributes set aside (`nonNsAttr`), in source order. -/
structure AttrScan where
  nsMap : NsMap
  nsAttributes : NsMap
  nonNs : List ((Option String × String) × String)

/-- One step of the first loop of `_setAttributes`: `xmlns`/`xmlns:alias`
attributes extend both `_nsMap` and `_nsAttributes`; everything else is
set aside with its name split at the first `:`. -/
def scanAttr (acc : AttrScan) (attr : String × String) : AttrScan :=
  match splitNamespace attr.1 with
  | (none, _) =>
    if attr.1 = "xmlns" then
      { acc with nsMap := alistInsert none attr.2 acc.nsMap,
                 nsAttributes := alistInsert none attr.2 acc.nsAttributes }
    else
      { acc with nonNs := acc.nonNs ++ [((none, attr.1), attr.2)] }
  | (some p, rest) =>
    if p = "xmlns" then
      { acc with nsMap := alistInsert (some rest) attr.2 acc.nsMap,
                 nsAttributes := alistInsert (some rest) attr.2 acc.nsAttributes }
    else
      { acc with nonNs := acc.nonNs ++ [((some p, rest), attr.2)] }

/-- The second loop of `_setAttributes` in `src/xmllib.py`: qualify each
non-declaration attribute.  A bare `xml:` alias with no `xmlns:xml`
declaration is implicitly bound to `DataBinder.xmlBaseNamespace` (in both
`_nsMap` and `_nsAttributes`); any other unresolvable alias raises
`UndefinedNamespaceError`. -/
def qualifyAttrs (nsMap nsAttrs : NsMap) (other : OtherAttrs) :
    List ((Option String × String) × String) → Except XErr (NsMap × NsMap × OtherAttrs)
  | [] => .ok (nsMap, nsAttrs, other)
  | ((nsName, attrName), attrVal) :: rest =>
    let nsMap' := if nsName = some "xml" ∧ alistHasKey nsName nsMap = false
      then alistInsert nsName xmlBaseNamespace nsMap else nsMap
    let nsAttrs' := if nsName = some "xml" ∧ alistHasKey nsName nsMap = false
      then alistInsert nsName xmlBaseNamespace nsAttrs else nsAttrs
    match nsName with
    | some a =>
      if alistHasKey (some a) nsMap' = true then
        qualifyAttrs nsMap' nsAttrs' (alistInsert (nsName, attrName) attrVal other) rest
      else .error (.undefinedNamespace a)
    | none => qualifyAttrs nsMap' nsAttrs' (alistInsert (nsName, attrName) attrVal other) rest

/-- The second loop of `_setAttributes` in the duplicated copy
`src/rpath_common/xmllib/api1.py`: identical except that there is no
implicit binding for the `xml` alias — it raises like any other
undeclared alias. -/
def qualifyAttrsApi1 (nsMap nsAttrs : NsMap) (other : OtherAttrs) :
    List ((Option String × String) × String) → Except XErr (NsMap × NsMap × OtherAttrs)
  | [] => .ok (nsMap, nsAttrs, other)
  | ((nsName, attrName), attrVal) :: rest =>
    match nsName with
    | some a =>
      if alistHasKey (some a) nsMap then
        qualifyAttrsApi1 nsMap nsAttrs (alistInsert (nsName, attrName) attrVal other) rest
      else .error (.undefinedNamespace a)
    | none => qualifyAttrsApi1 nsMap nsAttrs (alistInsert (nsName, attrName) attrVal other) rest

/-- `_setAttributes(attributes)` from `src/xmllib.py`, returning the
updated `(_nsMap, _nsAttributes, _otherAttributes)`.  `attributes = none`
embeds Python's `attributes is None` (the two attribute dicts are reset
and the namespace map is left as inherited). -/
def setAttributes (nsMap0 : NsMap) (attributes : Option (List (String × String))) :
    Except XErr (NsMap × NsMap × OtherAttrs) :=
  match attributes with
  | none => .ok (nsMap0, [], [])
  | some attrs =>
    let scan := attrs.foldl scanAttr ⟨nsMap0, [], []⟩
    qualifyAttrs scan.nsMap scan.nsAttributes [] scan.nonNs

/-- `_setAttributes` from `src/rpath_common/xmllib/api1.py`. -/
def setAttributesApi1 (nsMap0 : NsMap) (attributes : Option (List (String × String))) :
    Except XErr (NsMap × NsMap × OtherAttrs) :=
  match attributes with
  | none => .ok (nsMap0, [], [])
  | some attrs =>
    let scan := attrs.foldl scanAttr ⟨nsMap0, [], []⟩
    qualifyAttrsApi1 scan.nsMap scan.nsAttributes [] scan.nonNs

/-- Node construction as performed by `BindingHandler.startElement`:
`classType(attrs, nsMap = nsMap)` (which runs `_setAttributes`) followed
by `newNode.setName(name)`. -/
def mkNode (cls : NodeClass) (attributes : Option (List (String × String)))
    (nsMap : NsMap) (name : String) : Except XErr Node :=
  match setAttributes nsMap attributes with
  | .error e => .error e
  | .ok (m, nsA, oA) =>
    match setName m name with
    | .error e => .error e
    | .ok nm =>
      .ok { name := nm, nsMap := m, nsAttributes := nsA, otherAttributes := oA,
            children := [], cls := cls, fields := [] }

/-- Node construction against the `api1.py` copy of `_setAttributes`. -/
def mkNodeApi1 (cls : NodeClass) (attributes : Option (List (String × String)))
    (nsMap : NsMap) (name : String) : Except XErr Node :=
  match setAttributesApi1 nsMap attributes with
  | .error e => .error e
  | .ok (m, nsA, oA) =>
    match setName m name with
    | .error e => .error e
    | .ok nm =>
      .ok { name := nm, nsMap := m, nsAttributes := nsA, otherAttributes := oA,
            children := [], cls := cls, fields := [] }

/-! ### Node mutation and finalization -/

/-- Whether a child slot holds a Python string (a text run or a finalized
`StringNode`) — `isinstance(x, (str, unicode))` in the source. -/
def Item.isStr : Item → Bool
  | .str _ => true
  | _ => false

/-- `getText()` from the source: the first string item among the node's
children, or the empty string. -/
def getText (n : Node) : String :=
  firstStr n.children
where
  firstStr : List Item → String
    | [] => ""
    | .str s :: _ => s
    | _ :: rest => firstStr rest

/-- Python's `int(text)` as used by `IntegerNode.finalize`, with the
`ValueError → 0` fallback: strip ASCII whitespace, accept an optional
sign followed by one or more decimal digits, and return `0` on anything
else. -/
def pyIntOr0 (s : String) : Int :=
  match (pyStrip s).data with
  | '-' :: rest => -(Int.ofNat (digitsVal rest))
  | '+' :: rest => Int.ofNat (digitsVal rest)
  | l => Int.ofNat (digitsVal l)
where
  digitsVal (l : List Char) : Nat :=
    if l ≠ [] ∧ l.all Char.isDigit then
      l.foldl (fun acc c => acc * 10 + (c.toNat - '0'.toNat)) 0
    else 0

/-- `finalize()` dispatched over the node's class: `GenericNode` (and any
structural node) returns itself; `IntegerNode`, `StringNode`,
`BooleanNode`, `NullNode` replace the node by the scalar derived from its
text. -/
def finalize (n : Node) : Item :=
  match n.cls.kind with
  | .generic => .node n
  | .integer => .intVal (pyIntOr0 (getText n))
  | .stringK => .str (getText n)
  | .boolean => .boolVal (BooleanNode.fromString (getText n))
  | .null => .nullVal

/-- `characters(ch)` from the source: merge into a trailing string run,
drop the data when the last child is an element (no mixed content), and
start a text run when the node has no children yet. -/
def characters (n : Node) (ch : String) : Node :=
  match n.children.getLast? with
  | some (.str s) => { n with children := n.children.dropLast ++ [.str (s ++ ch)] }
  | some _ => n
  | none => { n with children := [.str ch] }

/-- `addChild(childNode)` from the source: when the last child is a string
run it is replaced by the finalized child (no mixed content); otherwise a
child whose name is in `_singleChildren` is stored as a named field
(`setattr`, last wins) and any other child is appended. -/
def addChild (n : Node) (childNode : Node) : Node :=
  match n.children.getLast? with
  | some (.str _) => { n with children := n.children.dropLast ++ [finalize childNode] }
  | _ =>
    if n.cls.singleChildren.contains (getName childNode) then
      { n with fields := alistInsert (getName childNode) (finalize childNode) n.fields }
    else
      { n with children := n.children ++ [finalize childNode] }

/-! ### The binding construction handler -/

/-- A SAX content event as delivered by the out-of-scope tokenizer. -/
inductive XEvent where
  | start (name : String) (attrs : List (String × String))
  | chars (s : String)
  | endE (name : String)

/-- The type registry: `(namespace, tagName)` → node class
(`BindingHandler.typeDict`). -/
abbrev TypeDict := List ((Option String × String) × NodeClass)

/-- The mutable state of a `BindingHandler`: the registry, the stack of
in-progress nodes, and the completed-root slot. -/
structure HState where
  typeDict : TypeDict
  stack : List Node
  rootNode : Option Item

/-- A freshly constructed `BindingHandler` (`__init__`). -/
def freshHandler (typeDict : TypeDict) : HState :=
  { typeDict := typeDict, stack := [], rootNode := none }

/-- `BindingHandler.startElement(name, attrs)`: look up the class for the
split name (defaulting to `GenericNode`), construct the node with the
namespace map copied from the top of the stack (empty when the stack is
empty), set its name, and push it. -/
def startElement (h : HState) (name : String) (attrs : List (String × String)) :
    Except XErr HState :=
  let classType := (alistLookup (splitNamespace name) h.typeDict).getD genericClass
  let nsMap := match h.stack.getLast? with
    | some top => top.nsMap
    | none => []
  match mkNode classType (some attrs) nsMap name with
  | .error e => .error e
  | .ok newNode => .ok { h with stack := h.stack ++ [newNode] }

/-- `BindingHandler._handleEndElement(name)`: pop the stack and assert the
popped node's name matches the end tag.  A pop from an empty stack is a
Python `IndexError`. -/
def handleEndElement (stack : List Node) (name : String) :
    Except XErr (Node × List Node) :=
  match stack.getLast? with
  | none => .error .indexError
  | some elem =>
    if getName elem = name then .ok (elem, stack.dropLast)
    else .error .assertionError

/-- `BindingHandler._processEndElement(elem)`: at the bottom of the stack
record the finalized node as the completed root, otherwise attach it to
the new stack top. -/
def processEndElement (h : HState) (elem : Node) : HState :=
  match h.stack.getLast? with
  | none => { h with rootNode := some (finalize elem) }
  | some top => { h with stack := h.stack.dropLast ++ [addChild top elem] }

/-- `BindingHandler.characters(ch)`: forward to the stack top; an empty
stack is a Python `IndexError`. -/
def handlerCharacters (h : HState) (ch : String) : Except XErr HState :=
  match h.stack.getLast? with
  | none => .error .indexError
  | some top => .ok { h with stack := h.stack.dropLast ++ [characters top ch] }

/-- One SAX callback of `BindingHandler`. -/
def hstep (h : HState) : XEvent → Except XErr HState
  | .start name attrs => startElement h name attrs
  | .chars s => handlerCharacters h s
  | .endE name =>
    match handleEndElement h.stack name with
    | .error e => .error e
    | .ok (elem, stack') => .ok (processEndElement { h with stack := stack' } elem)

/-- Deliver a list of events to a `BindingHandler`, stopping at the first
exception; returns the state reached and the exception, if any. -/
def runEvents (h : HState) : List XEvent → HState × Option XErr
  | [] => (h, none)
  | e :: rest =>
    match hstep h e with
    | .ok h' => runEvents h' rest
    | .error err => (h, some err)

/-- A parse input as seen through the tokenizer interface: the events the
tokenizer delivers, plus whether it then reports the document as
malformed (`SAXParseException`, delivered after the events it managed to
emit). -/
structure ParseInput where
  events : List XEvent
  malformed : Bool

/-- `DataBinder._parse(stream)` over the shared, reused content handler:
reset the root slot, feed the events, map a tokenizer error to
`InvalidXML` (other exceptions propagate as themselves), and on success
return the root slot and reset it. -/
def dbParse (h : HState) (inp : ParseInput) : Except XErr (Option Item) × HState :=
  let h0 := { h with rootNode := none }
  match runEvents h0 inp.events with
  | (h1, some err) => (.error err, h1)
  | (h1, none) =>
    if inp.malformed then (.error .invalidXML, h1)
    else (.ok h1.rootNode, { h1 with rootNode := none })

/-! ### Child ordering (`orderItems` / `iterChildren`) -/

/-- `orderHash = dict((y, i) for i, y in enumerate(order))`: tag → its
position in the ordering list (a later duplicate overwrites). -/
def orderHash (order : List String) : List (String × Nat) :=
  order.enum.foldl (fun d p => alistInsert p.2 p.1 d) []

/-- The Python sort key of `orderItems`:
`(x.getName() not in orderHash, orderHash.get(x.getName()), x.getName())`. -/
def pyKey (getNameF : α → String) (order : List String) (x : α) :
    Bool × Option Nat × String :=
  ((alistLookup (getNameF x) (orderHash order)).isNone,
   alistLookup (getNameF x) (orderHash order),
   getNameF x)

/-- Python-2 `<` on the middle key component: `None` sorts below every
integer. -/
def pyOptNatLT : Option Nat → Option Nat → Bool
  | none, some _ => true
  | some a, some b => a < b
  | _, none => false

/-- Python-2 `≤` on strings: lexicographic by code point. -/
def pyCharListLE (xs ys : List Char) : Bool :=
  match xs, ys with
  | c :: cs, d :: ds =>
    if c.toNat < d.toNat then true
    else if d.toNat < c.toNat then false
    else pyCharListLE cs ds
  | [], _ => true
  | _, _ => false

/-- Python-2 `≤` on strings, on the `String` wrapper. -/
def pyStrLE (a b : String) : Bool :=
  pyCharListLE a.data b.data

/-- Python-2 `≤` on whole sort keys: lexicographic on the triple, with
`False < True` on the first component. -/
def pyKeyLE (k1 k2 : Bool × Option Nat × String) : Bool :=
  if k1.1 = k2.1 then
    if k1.2.1 = k2.2.1 then pyStrLE k1.2.2 k2.2.2
    else pyOptNatLT k1.2.1 k2.2.1
  else k2.1

/-- The comparison `sorted` performs between two items under the
`orderItems` key. -/
def pyLE (getNameF : α → String) (order : List String) (x y : α) : Prop :=
  pyKeyLE (pyKey getNameF order x) (pyKey getNameF order y) = true

instance pyLE.instDecidable (getNameF : α → String) (order : List String) :
    DecidableRel (pyLE getNameF order) :=
  fun _ _ => inferInstanceAs (Decidable (_ = true))

/-- `orderItems(items, order)` from the source: Python's stable `sorted`
with the key above, embedded as the (equally stable) insertion sort.
The duck-typed `x.getName()` call is passed in as `getNameF`. -/
def orderItems (getNameF : α → String) (items : List α) (order : List String) :
    List α :=
  List.insertionSort (pyLE getNameF order) items

/-- The `x.getName()` call `orderItems` makes on a child item.  On a
non-node child the source raises `AttributeError`; the total embedding
returns `""` there (the ordering claims only concern element children). -/
def itemName : Item → String
  | .node d => getName d
  | _ => ""

/-- `iterChildren()` from the source: parse order, unless the class
declares `_childOrder`, in which case `orderItems` is applied. -/
def iterChildren (n : Node) : List Item :=
  match n.cls.childOrder with
  | some order => orderItems itemName n.children order
  | none => n.children

/-! ### The streaming variant -/

/-- State of a `StreamingBindingHandler`: the shared handler state plus
the `generatedNodes` pending-output queue (a FIFO deque). -/
structure SState where
  h : HState
  generatedNodes : List Item

/-- One SAX callback of `StreamingBindingHandler`: `startElement` and
`characters` are inherited; `endElement` pops as usual but appends a
node whose class is marked `WillYield` to the queue instead of attaching
it to its parent. -/
def sstep (s : SState) : XEvent → Except XErr SState
  | .start name attrs =>
    match startElement s.h name attrs with
    | .error e => .error e
    | .ok h' => .ok { s with h := h' }
  | .chars ch =>
    match handlerCharacters s.h ch with
    | .error e => .error e
    | .ok h' => .ok { s with h := h' }
  | .endE name =>
    match handleEndElement s.h.stack name with
    | .error e => .error e
    | .ok (elem, stack') =>
      if elem.cls.willYield then
        .ok { h := { s.h with stack := stack' },
              generatedNodes := s.generatedNodes ++ [finalize elem] }
      else
        .ok { s with h := processEndElement { s.h with stack := stack' } elem }

/-- Deliver a list of events to a `StreamingBindingHandler`, stopping at
the first exception. -/
def sRunEvents (s : SState) : List XEvent → SState × Option XErr
  | [] => (s, none)
  | e :: rest =>
    match sstep s e with
    | .ok s' => sRunEvents s' rest
    | .error err => (s, some err)

/-- Consuming `StreamingDataBinder._Iterator` to the end.  The byte
stream is embedded as the list of event batches the incremental parser
delivers, one batch per `BUFFER_SIZE` chunk fed by `next()`.  `next()`
pops the queue while it is nonempty, so all pending items are yielded
before the next chunk is fed (on the queue-emptied state); an empty
read with an empty queue ends the iteration, and an exception raised
during a feed propagates, ending the iteration after the items already
delivered. -/
def drain (s : SState) : List (List XEvent) → List Item
  | [] => s.generatedNodes
  | c :: cs =>
    s.generatedNodes ++
      match sRunEvents { s with generatedNodes := [] } c with
      | (s', none) => drain s' cs
      | (_, some _) => []

/-- A fresh `StreamingDataBinder` iterator state (`__init__` constructs
the handler with an empty stack and `_Iterator.__init__` calls
`clear()` on the queue). -/
def freshSHandler (typeDict : TypeDict) : SState :=
  { h := freshHandler typeDict, generatedNodes := [] }

/-- The events of a run of sibling leaf elements `<cᵢ>tᵢ</cᵢ>`. -/
def childEvents (cs : List (String × String)) : List XEvent :=
  (cs.map fun c => [XEvent.start c.1 [], XEvent.chars c.2, XEvent.endE c.1]).flatten

/-- The event stream of the document `<r> <c₁>t₁</c₁> … <cₙ>tₙ</cₙ> </r>`
used by the streaming claims: `n` sibling elements under one root, each
carrying one character-data run. -/
def docEvents (r : String) (cs : List (String × String)) : List XEvent :=
  XEvent.start r [] :: (childEvents cs ++ [XEvent.endE r])

/-- The node a sibling element `<c>t</c>` binds to when constructed under
a parent with namespace map `m` against the registry `td`. -/
def childNode (td : TypeDict) (m : NsMap) (c : String × String) : Node :=
  { name := (none, c.1), nsMap := m, nsAttributes := [], otherAttributes := [],
    children := [.str c.2], cls := (alistLookup (none, c.1) td).getD genericClass,
    fields := [] }

/-- The finalized, queued form of such a sibling element (its class being
generic, `finalize` returns the node itself). -/
def expectedChild (td : TypeDict) (m : NsMap) (c : String × String) : Item :=
  finalize (childNode td m c)

/-! ### Concrete scenarios referenced by the theorems -/

/-- The event stream of `<node>Some text<child>X</child></node>`. -/
def mixedDocInput : ParseInput :=
  { events := [.start "node" [], .chars "Some text", .start "child" [],
               .chars "X", .endE "child", .endE "node"],
    malformed := false }

/-- The node `<child>X</child>` binds to. -/
def mixedDocChild : Node :=
  { name := (none, "child"), nsMap := [], nsAttributes := [], otherAttributes := [],
    children := [.str "X"], cls := genericClass, fields := [] }

/-- The root node of `<node>Some text<child>X</child></node>`: its only
child is `child`, the leading text run having been dropped. -/
def mixedDocRoot : Node :=
  { name := (none, "node"), nsMap := [], nsAttributes := [], otherAttributes := [],
    children := [.node mixedDocChild], cls := genericClass, fields := [] }

/-- A parse whose tokenizer delivers `<a>` and then reports the input as
malformed (e.g. `parseString('<a><b>')`). -/
def abortedInput : ParseInput :=
  { events := [.start "a" []], malformed := true }

/-- The well-formed document `<b/>`. -/
def bDocInput : ParseInput :=
  { events := [.start "b" [], .endE "b"], malformed := false }

/-- The root node `<b/>` binds to on a fresh binder. -/
def bDocRoot : Node :=
  { name := (none, "b"), nsMap := [], nsAttributes := [], otherAttributes := [],
    children := [], cls := genericClass, fields := [] }

/-- A node whose last (and only) child is a text run. -/
def textOnlyNode : Node :=
  { name := (none, "p"), nsMap := [], nsAttributes := [], otherAttributes := [],
    children := [.str "a"], cls := genericClass, fields := [] }

/-- A node whose last child is an element. -/
def elemLastNode : Node :=
  { name := (none, "p"), nsMap := [], nsAttributes := [], otherAttributes := [],
    children := [.node mixedDocChild], cls := genericClass, fields := [] }

/-- A node of a class promoting `child` tags to a named field
(`_singleChildren = ['child']`), currently ending in a text run. -/
def promoNode : Node :=
  { name := (none, "p"), nsMap := [], nsAttributes := [], otherAttributes := [],
    children := [.str "hi"],
    cls := { genericClass with singleChildren := ["child"] }, fields := [] }

/-- A class marked to yield on completion in the streaming variant. -/
def yieldClass : NodeClass :=
  { genericClass with willYield := true }

/-- The node `<xml:foo xml:lang="en"/>` binds to in `src/xmllib.py`: the
attribute's `xml` alias triggers the implicit binding, which then also
lets the node's own name resolve. -/
def xmlFooNode : Node :=
  { name := (some "xml", "foo"),
    nsMap := [(some "xml", xmlBaseNamespace)],
    nsAttributes := [(some "xml", xmlBaseNamespace)],
    otherAttributes := [((some "xml", "lang"), "en")],
    children := [], cls := genericClass, fields := [] }

/-- The in-progress root node of `<r>…</r>` (no attributes, empty
namespace map) against the registry `td`. -/
def rootN (td : TypeDict) (r : String) : Node :=
  { name := (none, r), nsMap := [], nsAttributes := [], otherAttributes := [],
    children := [], cls := (alistLookup (none, r) td).getD genericClass,
    fields := [] }

/-- A node of a class declaring the child ordering `["b", "z"]`. -/
def orderedNode : Node :=
  { name := (none, "p"), nsMap := [], nsAttributes := [], otherAttributes := [],
    children := [.node bDocRoot, .node mixedDocChild],
    cls := { genericClass with childOrder := some ["b", "z"] }, fields := [] }

/-! ## Theorems -/

/-- The code-point comparison is reflexive. -/
theorem pyCharListLE_refl : ∀ l : List Char, pyCharListLE l l = true
  | [] => rfl
  | a :: as => by
    simp [pyCharListLE, Nat.lt_irrefl, pyCharListLE_refl as]

/-- The code-point comparison is total. -/
theorem pyCharListLE_total : ∀ a b : List Char,
    pyCharListLE a b = true ∨ pyCharListLE b a = true
  | [], _ => Or.inl rfl
  | _ :: _, [] => Or.inr rfl
  | a :: as, b :: bs => by
    simp only [pyCharListLE]
    rcases Nat.lt_trichotomy a.toNat b.toNat with h | h | h
    · left; simp [h]
    · rw [if_neg (by omega), if_neg (by omega), if_neg (by omega), if_neg (by omega)]
      exact pyCharListLE_total as bs
    · right; simp [h]

/-- The code-point comparison is transitive. -/
theorem pyCharListLE_trans : ∀ a b c : List Char,
    pyCharListLE a b = true → pyCharListLE b c = true → pyCharListLE a c = true
  | [], _, _, _, _ => rfl
  | _ :: _, [], _, h1, _ => by simp [pyCharListLE] at h1
  | _ :: _, _ :: _, [], _, h2 => by simp [pyCharListLE] at h2
  | a :: as, b :: bs, c :: cs, h1, h2 => by
    simp only [pyCharListLE] at h1 h2 ⊢
    rcases Nat.lt_trichotomy a.toNat b.toNat with hab | hab | hab
    · rcases Nat.lt_trichotomy b.toNat c.toNat with hbc | hbc | hbc
      · simp [show a.toNat < c.toNat by omega]
      · simp [show a.toNat < c.toNat by omega]
      · rw [if_neg (by omega), if_pos (by omega)] at h2
        exact Bool.noConfusion h2
    · rw [if_neg (by omega), if_neg (by omega)] at h1
      rcases Nat.lt_trichotomy b.toNat c.toNat with hbc | hbc | hbc
      · simp [show a.toNat < c.toNat by omega]
      · rw [if_neg (by omega), if_neg (by omega)] at h2
        rw [if_neg (by omega), if_neg (by omega)]
        exact pyCharListLE_trans as bs cs h1 h2
      · rw [if_neg (by omega), if_pos (by omega)] at h2
        exact Bool.noConfusion h2
    · rw [if_neg (by omega), if_pos (by omega)] at h1
      exact Bool.noConfusion h1

/-- Equal sort keys compare `≤`. -/
theorem pyKeyLE_refl (k : Bool × Option Nat × String) : pyKeyLE k k = true := by
  simp [pyKeyLE, pyStrLE, pyCharListLE_refl]

/-- Transitivity of the Python-2 `<` on the middle key component. -/
theorem pyOptNatLT_trans {a b c : Option Nat}
    (h1 : pyOptNatLT a b = true) (h2 : pyOptNatLT b c = true) :
    pyOptNatLT a c = true := by
  cases a <;> cases b <;> cases c <;> simp_all [pyOptNatLT] <;> omega

/-- Irreflexivity of the Python-2 `<` on the middle key component. -/
theorem pyOptNatLT_irrefl (a : Option Nat) : pyOptNatLT a a = false := by
  cases a <;> simp [pyOptNatLT]

/-- The key comparison is total. -/
theorem pyKeyLE_total (k1 k2 : Bool × Option Nat × String) :
    pyKeyLE k1 k2 = true ∨ pyKeyLE k2 k1 = true := by
  obtain ⟨b1, m1, s1⟩ := k1
  obtain ⟨b2, m2, s2⟩ := k2
  simp only [pyKeyLE]
  by_cases hb : b1 = b2
  · subst hb
    simp only [if_pos rfl]
    by_cases hm : m1 = m2
    · subst hm
      simp only [if_pos rfl]
      rcases pyCharListLE_total s1.data s2.data with h | h
      · exact Or.inl h
      · exact Or.inr h
    · have hm' : ¬ (m2 = m1) := fun e => hm e.symm
      simp only [if_neg hm, if_neg hm']
      rcases m1 with _ | x <;> rcases m2 with _ | y <;> simp_all [pyOptNatLT] <;> omega
  · have hb' : ¬ (b2 = b1) := fun e => hb e.symm
    simp only [if_neg hb, if_neg hb']
    cases b1 <;> cases b2 <;> simp_all

/-- The key comparison is transitive. -/
theorem pyKeyLE_trans {k1 k2 k3 : Bool × Option Nat × String}
    (h12 : pyKeyLE k1 k2 = true) (h23 : pyKeyLE k2 k3 = true) :
    pyKeyLE k1 k3 = true := by
  obtain ⟨b1, m1, s1⟩ := k1
  obtain ⟨b2, m2, s2⟩ := k2
  obtain ⟨b3, m3, s3⟩ := k3
  simp only [pyKeyLE] at h12 h23 ⊢
  by_cases hb12 : b1 = b2 <;> by_cases hb23 : b2 = b3
  · subst hb12; subst hb23
    rw [if_pos rfl] at h12 h23 ⊢
    by_cases hm12 : m1 = m2 <;> by_cases hm23 : m2 = m3
    · subst hm12; subst hm23
      rw [if_pos rfl] at h12 h23 ⊢
      exact pyCharListLE_trans _ _ _ h12 h23
    · subst hm12
      rw [if_neg hm23] at h23 ⊢
      exact h23
    · subst hm23
      rw [if_neg hm12] at h12 ⊢
      exact h12
    · rw [if_neg hm12] at h12
      rw [if_neg hm23] at h23
      have hlt := pyOptNatLT_trans h12 h23
      have hne : ¬ (m1 = m3) := by
        intro e
        subst e
        rw [pyOptNatLT_irrefl] at hlt
        exact Bool.noConfusion hlt
      rw [if_neg hne]
      exact hlt
  · subst hb12
    rw [if_neg hb23] at h23 ⊢
    exact h23
  · subst hb23
    rw [if_neg hb12] at h12 ⊢
    exact h12
  · rw [if_neg hb12] at h12
    rw [if_neg hb23] at h23
    exact absurd (h12.trans h23.symm) hb23

instance pyLE.instIsTotal (getNameF : α → String) (order : List String) :
    IsTotal α (pyLE getNameF order) :=
  ⟨fun _ _ => pyKeyLE_total _ _⟩

instance pyLE.instIsTrans (getNameF : α → String) (order : List String) :
    IsTrans α (pyLE getNameF order) :=
  ⟨fun _ _ _ hab hbc => pyKeyLE_trans hab hbc⟩

/-- Inserting `x` into a sorted list places it before every element with
an equal key, so filtering one key class commutes with the insertion. -/
theorem orderedInsert_filter_key (getNameF : α → String) (order : List String)
    (x : α) (k : Bool × Option Nat × String) :
    ∀ t : List α,
      (t.orderedInsert (pyLE getNameF order) x).filter
          (fun z => decide (pyKey getNameF order z = k))
        = if pyKey getNameF order x = k
          then x :: t.filter (fun z => decide (pyKey getNameF order z = k))
          else t.filter (fun z => decide (pyKey getNameF order z = k))
  | [] => by
    by_cases hx : pyKey getNameF order x = k <;>
      simp [List.orderedInsert, List.filter, hx]
  | y :: ys => by
    simp only [List.orderedInsert]
    by_cases hxy : pyLE getNameF order x y
    · rw [if_pos hxy]
      by_cases hx : pyKey getNameF order x = k <;>
        simp [List.filter, hx]
    · rw [if_neg hxy]
      have ih := orderedInsert_filter_key getNameF order x k ys
      simp only [List.filter_cons]
      by_cases hy : pyKey getNameF order y = k
      · have hx : ¬ pyKey getNameF order x = k := by
          intro hx
          apply hxy
          show pyKeyLE _ _ = true
          rw [hx, hy]
          exact pyKeyLE_refl k
        have hPy : decide (pyKey getNameF order y = k) = true := by simp [hy]
        rw [if_pos hPy, ih, if_neg hx, if_neg hx, if_pos hPy]
      · have hPy : ¬ (decide (pyKey getNameF order y = k) = true) := by simp [hy]
        rw [if_neg hPy, ih]
        by_cases hx : pyKey getNameF order x = k
        · rw [if_pos hx, if_pos hx, if_neg hPy]
        · rw [if_neg hx, if_neg hx, if_neg hPy]

/-- Insertion sort (Python's stable `sorted`) preserves the relative
order of elements with equal keys: filtering any key class gives the
same list before and after sorting. -/
theorem insertionSort_filter_key (getNameF : α → String) (order : List String)
    (k : Bool × Option Nat × String) :
    ∀ l : List α,
      ((List.insertionSort (pyLE getNameF order) l).filter
          (fun z => decide (pyKey getNameF order z = k)))
        = l.filter (fun z => decide (pyKey getNameF order z = k))
  | [] => rfl
  | a :: l => by
    simp only [List.insertionSort]
    rw [orderedInsert_filter_key getNameF order a k,
      insertionSort_filter_key getNameF order k l, List.filter_cons]
    by_cases ha : pyKey getNameF order a = k
    · rw [if_pos ha, if_pos (by simp [ha])]
    · rw [if_neg ha, if_neg (by simp [ha])]

/-- C7: `orderItems` is a permutation of its input, sorted by the key
(child not in the ordering list, its position in the list, its tag name)
— so listed children come first in the list's order and unlisted ones
follow sorted by tag name — and it is stable: each key class keeps its
parse order.  `iterChildren` yields parse order for a class with no
`_childOrder` and `orderItems` of the children otherwise.  (Purity —
identical repeated calls, no mutation of the input — is immediate:
Python's `sorted` returns a fresh list and the embedding is a function.) -/
theorem c7_child_ordering (getNameF : α → String) (items : List α)
    (order : List String) (n : Node) :
    List.Perm (orderItems getNameF items order) items ∧
    List.Sorted (pyLE getNameF order) (orderItems getNameF items order) ∧
    (∀ k, (orderItems getNameF items order).filter
        (fun z => decide (pyKey getNameF order z = k))
      = items.filter (fun z => decide (pyKey getNameF order z = k))) ∧
    (∀ x y ix, alistLookup (getNameF x) (orderHash order) = some ix →
      alistLookup (getNameF y) (orderHash order) = none →
      pyLE getNameF order x y) ∧
    (∀ x y, alistLookup (getNameF x) (orderHash order) = none →
      alistLookup (getNameF y) (orderHash order) = none →
      (pyLE getNameF order x y ↔ pyStrLE (getNameF x) (getNameF y) = true)) ∧
    (∀ x y ix iy, alistLookup (getNameF x) (orderHash order) = some ix →
      alistLookup (getNameF y) (orderHash order) = some iy →
      (pyLE getNameF order x y ↔
        (ix < iy ∨ (ix = iy ∧ pyStrLE (getNameF x) (getNameF y) = true)))) ∧
    (n.cls.childOrder = none → iterChildren n = n.children) ∧
    (∀ ord, n.cls.childOrder = some ord →
      iterChildren n = orderItems itemName n.children ord) := by
  refine ⟨List.perm_insertionSort _ items,
    List.sorted_insertionSort _ items,
    fun k => insertionSort_filter_key getNameF order k items,
    ?_, ?_, ?_, ?_, ?_⟩
  · intro x y ix hx hy
    show pyKeyLE _ _ = true
    simp [pyKey, pyKeyLE, hx, hy]
  · intro x y hx hy
    show pyKeyLE _ _ = true ↔ _
    simp [pyKey, pyKeyLE, hx, hy]
  · intro x y ix iy hx hy
    show pyKeyLE _ _ = true ↔ _
    by_cases hii : ix = iy
    · subst hii
      simp [pyKey, pyKeyLE, hx, hy, pyOptNatLT_irrefl]
    · have : ¬ (some ix = some iy) := fun e => hii (Option.some.inj e)
      simp [pyKey, pyKeyLE, hx, hy, this, pyOptNatLT, hii]
  · intro h
    simp [iterChildren, h]
  · intro ord h
    simp [iterChildren, h]

/-- C7 witnessed: a node with no ordering list iterates in parse order; a
node declaring `["b", "z"]` iterates via `orderItems`; and `orderItems`
on a concrete mixed list puts listed tags first in list order and the
rest sorted by name, stably. -/
theorem c7_child_ordering_witness :
    iterChildren mixedDocChild = mixedDocChild.children ∧
    iterChildren orderedNode = orderItems itemName orderedNode.children ["b", "z"] ∧
    orderItems (fun s => s) ["x", "b", "a", "z", "b"] ["b", "z"]
      = ["b", "b", "z", "a", "x"] :=
  ⟨(c7_child_ordering itemName ([] : List Item) [] mixedDocChild).2.2.2.2.2.2.1 rfl,
   (c7_child_ordering itemName ([] : List Item) [] orderedNode).2.2.2.2.2.2.2 ["b", "z"] rfl,
   by decide⟩

/-- A `StreamingBindingHandler` step never reads the pending queue: its
behaviour on a state with queue `q` is its behaviour on the emptied
queue with `q` re-prepended. -/
theorem sstep_queue (s : SState) (e : XEvent) :
    sstep s e =
      match sstep { s with generatedNodes := [] } e with
      | .ok s' => .ok { s' with generatedNodes := s.generatedNodes ++ s'.generatedNodes }
      | .error err => .error err := by
  cases e with
  | start name attrs =>
    simp only [sstep]
    cases startElement s.h name attrs <;> simp
  | chars c =>
    simp only [sstep]
    cases handlerCharacters s.h c <;> simp
  | endE name =>
    simp only [sstep]
    cases handleEndElement s.h.stack name with
    | error err => simp
    | ok p =>
      obtain ⟨elem, stack'⟩ := p
      by_cases hw : elem.cls.willYield = true <;> simp [hw]

/-- Queue-obliviousness of a whole event run. -/
theorem sRunEvents_queue : ∀ (evs : List XEvent) (s : SState),
    sRunEvents s evs =
      ({ (sRunEvents { s with generatedNodes := [] } evs).1 with
          generatedNodes := s.generatedNodes ++
            (sRunEvents { s with generatedNodes := [] } evs).1.generatedNodes },
       (sRunEvents { s with generatedNodes := [] } evs).2)
  | [], s => by simp [sRunEvents]
  | e :: rest, s => by
    simp only [sRunEvents]
    have hq := sstep_queue s e
    rcases hse : sstep { s with generatedNodes := [] } e with err | s0 <;>
      rw [hse] at hq <;> simp only [] at hq <;> rw [hq] <;> simp only []
    · simp
    · have ih1 := sRunEvents_queue rest
        { s0 with generatedNodes := s.generatedNodes ++ s0.generatedNodes }
      have ih2 := sRunEvents_queue rest s0
      rw [ih1, ih2]
      simp

/-- Running a concatenation of event lists: the second part runs from the
state the first part reaches, unless the first part raised. -/
theorem sRunEvents_append : ∀ (a b : List XEvent) (s : SState),
    sRunEvents s (a ++ b) =
      match sRunEvents s a with
      | (s1, none) => sRunEvents s1 b
      | (s1, some err) => (s1, some err)
  | [], b, s => by simp [sRunEvents]
  | e :: rest, b, s => by
    simp only [List.cons_append, sRunEvents]
    cases hse : sstep s e with
    | error err => simp
    | ok s' => exact sRunEvents_append rest b s'

/-- Construction of a node with a colon-free name and no attributes. -/
theorem mkNode_simple (cls : NodeClass) (m : NsMap) (name : String)
    (hsplit : splitNamespace name = (none, name)) :
    mkNode cls (some []) m name = .ok
      { name := (none, name), nsMap := m, nsAttributes := [],
        otherAttributes := [], children := [], cls := cls, fields := [] } := by
  simp only [mkNode]
  rw [show setAttributes m (some []) = Except.ok (m, [], []) from rfl]
  simp only []
  rw [show setName m name = Except.ok (none, name) from by simp [setName, hsplit]]

/-- `startElement` on a colon-free tag with no attributes: the node is
built with the stack top's namespace map and pushed. -/
theorem startElement_simple (h : HState) (name : String)
    (hsplit : splitNamespace name = (none, name)) :
    startElement h name [] = .ok { h with stack := h.stack ++
      [{ name := (none, name),
         nsMap := ((h.stack.getLast?).map (fun t => t.nsMap)).getD [],
         nsAttributes := [], otherAttributes := [], children := [],
         cls := (alistLookup (none, name) h.typeDict).getD genericClass,
         fields := [] }] } := by
  cases hl : h.stack.getLast? with
  | none =>
    simp only [startElement, hsplit, hl]
    rw [mkNode_simple _ [] name hsplit]
    rfl
  | some top =>
    simp only [startElement, hsplit, hl]
    rw [mkNode_simple _ top.nsMap name hsplit]
    rfl

/-- `characters` forwarded to the node on top of the stack. -/
theorem handlerCharacters_concat (h : HState) (S : List Node) (n : Node)
    (ch : String) (hs : h.stack = S ++ [n]) :
    handlerCharacters h ch = .ok { h with stack := S ++ [characters n ch] } := by
  simp [handlerCharacters, hs, List.getLast?_concat, List.dropLast_concat]

/-- `_handleEndElement` pops the matching top of the stack. -/
theorem handleEndElement_concat (S : List Node) (n : Node) (name : String)
    (hname : getName n = name) :
    handleEndElement (S ++ [n]) name = .ok (n, S) := by
  simp [handleEndElement, List.getLast?_concat, List.dropLast_concat, hname]

/-- Feeding the events of a run of yield-marked sibling leaf elements to
the streaming handler: the stack and root are untouched and the
finalized siblings are appended to the queue in document order. -/
theorem childEvents_run (td : TypeDict) :
    ∀ (cs : List (String × String)) (s : SState) (st0 : List Node) (top : Node),
      s.h.stack = st0 ++ [top] →
      s.h.typeDict = td →
      (∀ c ∈ cs, splitNamespace c.1 = (none, c.1) ∧
        ((alistLookup (none, c.1) td).getD genericClass).willYield = true) →
      sRunEvents s (childEvents cs) =
        ({ s with generatedNodes :=
            s.generatedNodes ++ cs.map (expectedChild td top.nsMap) }, none)
  | [], s, st0, top, hstack, htd, hcs => by
    simp [childEvents, sRunEvents]
  | (cn, ct) :: rest, s, st0, top, hstack, htd, hcs => by
    obtain ⟨hsplit, hyield⟩ := hcs (cn, ct) (List.mem_cons_self _ _)
    have hce : childEvents ((cn, ct) :: rest)
        = XEvent.start cn [] :: XEvent.chars ct :: XEvent.endE cn :: childEvents rest := by
      simp [childEvents]
    rw [hce]
    have hlast : s.h.stack.getLast? = some top := by
      rw [hstack]; exact List.getLast?_concat _
    have hstep1 : startElement s.h cn [] = .ok
        { typeDict := td,
          stack := s.h.stack ++
            [{ name := (none, cn), nsMap := top.nsMap, nsAttributes := [],
               otherAttributes := [], children := [],
               cls := (alistLookup (none, cn) td).getD genericClass, fields := [] }],
          rootNode := s.h.rootNode } := by
      rw [startElement_simple s.h cn hsplit, hlast, htd]
      rfl
    simp only [sRunEvents, sstep, hstep1]
    have hstep2 : handlerCharacters
        { typeDict := td,
          stack := s.h.stack ++
            [{ name := (none, cn), nsMap := top.nsMap, nsAttributes := [],
               otherAttributes := [], children := [],
               cls := (alistLookup (none, cn) td).getD genericClass, fields := [] }],
          rootNode := s.h.rootNode } ct
        = .ok { typeDict := td,
                stack := s.h.stack ++ [childNode td top.nsMap (cn, ct)],
                rootNode := s.h.rootNode } := by
      rw [handlerCharacters_concat _ s.h.stack _ ct rfl]
      rfl
    simp only [hstep2]
    have hstep3 : handleEndElement (s.h.stack ++ [childNode td top.nsMap (cn, ct)]) cn
        = .ok (childNode td top.nsMap (cn, ct), s.h.stack) := by
      apply handleEndElement_concat
      simp [getName, childNode, unsplitNamespace]
    simp only [hstep3]
    rw [show (childNode td top.nsMap (cn, ct)).cls.willYield = true from hyield]
    simp only [eq_self_iff_true, if_true]
    have ih := childEvents_run td rest
      { h := { typeDict := td, stack := s.h.stack, rootNode := s.h.rootNode },
        generatedNodes := s.generatedNodes ++ [finalize (childNode td top.nsMap (cn, ct))] }
      st0 top hstack rfl (fun c hc => hcs c (List.mem_cons_of_mem _ hc))
    simp only [] at ih
    rw [ih, ← htd]
    simp [expectedChild, List.append_assoc]

/-- Draining the iterator yields exactly the queue contents of running
the whole (flattened) stream, for any chunking, when no step raises. -/
theorem drain_eq_queue : ∀ (chunks : List (List XEvent)) (s : SState),
    (sRunEvents { s with generatedNodes := [] } chunks.flatten).2 = none →
    drain s chunks = s.generatedNodes ++
      (sRunEvents { s with generatedNodes := [] } chunks.flatten).1.generatedNodes
  | [], s, h => by simp [drain, sRunEvents]
  | c :: cs, s, h => by
    rw [List.flatten_cons, sRunEvents_append] at h
    simp only [drain]
    rcases hr : sRunEvents { s with generatedNodes := [] } c with ⟨s1, e1⟩
    rw [hr] at h
    cases e1 with
    | some err => simp at h
    | none =>
      simp only [] at h
      simp only []
      have hq := sRunEvents_queue cs.flatten s1
      have hbase : (sRunEvents { s1 with generatedNodes := [] } cs.flatten).2 = none := by
        rw [hq] at h
        exact h
      rw [drain_eq_queue cs s1 hbase, List.flatten_cons, sRunEvents_append, hr]
      simp only []
      rw [hq]

/-- C8: in the streaming variant, a document with sibling yield-marked
elements under one root (for any chunking of the event stream whose
concatenation is the document's events) drains to exactly those
siblings, finalized, in the document order of their closing tags; the
full run raises nothing, leaves the stack empty, enqueues exactly the
siblings (all of which the iterator delivered, so the queue is drained
at exhaustion), and the yielded nodes are never attached to the root:
the finalized root has no children. -/
theorem c8_streaming (td : TypeDict) (r : String) (cs : List (String × String))
    (chunks : List (List XEvent))
    (hr : splitNamespace r = (none, r))
    (hry : ((alistLookup (none, r) td).getD genericClass).willYield = false)
    (hcs : ∀ c ∈ cs, splitNamespace c.1 = (none, c.1) ∧
      ((alistLookup (none, c.1) td).getD genericClass).willYield = true)
    (hchunks : chunks.flatten = docEvents r cs) :
    drain (freshSHandler td) chunks = cs.map (expectedChild td []) ∧
    (drain (freshSHandler td) chunks).length = cs.length ∧
    sRunEvents (freshSHandler td) (docEvents r cs) =
      ({ h := { typeDict := td, stack := [],
                rootNode := some (finalize
                  { name := (none, r), nsMap := [], nsAttributes := [],
                    otherAttributes := [], children := [],
                    cls := (alistLookup (none, r) td).getD genericClass,
                    fields := [] }) },
         generatedNodes := cs.map (expectedChild td []) }, none) := by
  have hstep1 : startElement { typeDict := td, stack := [], rootNode := none } r []
      = .ok { typeDict := td, stack := [rootN td r], rootNode := none } := by
    rw [startElement_simple _ r hr]
    rfl
  have hend : handleEndElement [rootN td r] r = .ok (rootN td r, []) := by
    have h0 := handleEndElement_concat [] (rootN td r) r
      (by simp [getName, rootN, unsplitNamespace])
    simpa using h0
  have hchild := childEvents_run td cs
    { h := { typeDict := td, stack := [rootN td r], rootNode := none },
      generatedNodes := [] }
    [] (rootN td r) rfl rfl hcs
  have hrun : sRunEvents (freshSHandler td) (docEvents r cs) =
      ({ h := { typeDict := td, stack := [],
                rootNode := some (finalize (rootN td r)) },
         generatedNodes := cs.map (expectedChild td (rootN td r).nsMap) }, none) := by
    simp only [docEvents, sRunEvents, sstep, freshSHandler, freshHandler, hstep1]
    rw [sRunEvents_append]
    rw [hchild]
    simp only [List.nil_append, sRunEvents, sstep, hend]
    rw [show (rootN td r).cls.willYield = false from hry]
    simp only [Bool.false_eq_true, if_neg (by exact fun hh => hh), processEndElement]
    simp [sRunEvents]
  have hmap : (rootN td r).nsMap = [] := rfl
  rw [hmap] at hrun
  refine ⟨?_, ?_, ?_⟩
  · have hd := drain_eq_queue chunks (freshSHandler td)
    rw [hchunks] at hd
    have hres := hd (by
      rw [show { freshSHandler td with generatedNodes := [] } = freshSHandler td from rfl,
        hrun])
    rw [show { freshSHandler td with generatedNodes := [] } = freshSHandler td from rfl,
      hrun] at hres
    exact hres.trans rfl
  · have hd := drain_eq_queue chunks (freshSHandler td)
    rw [hchunks] at hd
    have hres := hd (by
      rw [show { freshSHandler td with generatedNodes := [] } = freshSHandler td from rfl,
        hrun])
    rw [show { freshSHandler td with generatedNodes := [] } = freshSHandler td from rfl,
      hrun] at hres
    have h1 : drain (freshSHandler td) chunks = cs.map (expectedChild td []) :=
      hres.trans rfl
    rw [h1]
    simp
  · rw [hrun]
    rfl

/-- Flattening one-event chunks recovers the event stream. -/
theorem flatten_map_singleton : ∀ l : List α, (l.map (fun e => [e])).flatten = l
  | [] => rfl
  | a :: l => by simp [flatten_map_singleton l]

/-- C8 witnessed: streaming `<r><c1>t1</c1><c2>t2</c2></r>` with `c1`,
`c2` registered as yield-on-completion classes, chunked one event at a
time, yields exactly the two finalized siblings in document order. -/
theorem c8_streaming_witness :
    drain (freshSHandler [((none, "c1"), yieldClass), ((none, "c2"), yieldClass)])
        ((docEvents "r" [("c1", "t1"), ("c2", "t2")]).map (fun e => [e]))
      = [Item.node
          { name := (none, "c1"), nsMap := [], nsAttributes := [],
            otherAttributes := [], children := [.str "t1"], cls := yieldClass,
            fields := [] },
         Item.node
          { name := (none, "c2"), nsMap := [], nsAttributes := [],
            otherAttributes := [], children := [.str "t2"], cls := yieldClass,
            fields := [] }] := by
  have h := c8_streaming [((none, "c1"), yieldClass), ((none, "c2"), yieldClass)]
    "r" [("c1", "t1"), ("c2", "t2")]
    ((docEvents "r" [("c1", "t1"), ("c2", "t2")]).map (fun e => [e]))
    rfl rfl (by decide) (flatten_map_singleton _)
  rw [h.1]
  rfl

/-- C9: `BooleanNode` round trip: `fromString (toString b) = b` for both
booleans; `fromString` maps a string to `true` exactly when its stripped,
upper-cased form is `"TRUE"` or `"1"` (hence `"TRUE"`, `" true "` and
`"1"` map to `true` and everything else, e.g. `"yes"`, to `false`); and
`toString` produces exactly `"true"` or `"false"`. -/
theorem c9_boolean_roundtrip :
    (∀ b, BooleanNode.fromString (BooleanNode.toString b) = b) ∧
    (∀ s, BooleanNode.fromString s = true ↔
      (pyUpper (pyStrip s) = "TRUE" ∨ pyUpper (pyStrip s) = "1")) ∧
    (∀ b, BooleanNode.toString b = "true" ∨ BooleanNode.toString b = "false") ∧
    BooleanNode.fromString "TRUE" = true ∧
    BooleanNode.fromString " true " = true ∧
    BooleanNode.fromString "1" = true ∧
    BooleanNode.fromString "yes" = false := by
  refine ⟨fun b => by cases b <;> decide, fun s => ?_,
    fun b => by cases b <;> simp [BooleanNode.toString],
    by decide, by decide, by decide, by decide⟩
  simp [BooleanNode.fromString]

/-- None of the stream operations of the embedding change the content. -/
theorem validate_content
    (sniff : String → Option (String × Option String))
    (fs : String → Option (List String)) (sval : Option String → String → Bool)
    (schemaDir : Option String) (st : Stream) :
    ((validate sniff fs sval schemaDir st).2).content = st.content := by
  unfold validate getSchemaLocationsFromStream
  rcases sniff st.rest with _ | ⟨nm, _ | loc⟩ <;> simp only [Stream.seek, Stream.consume]
  rcases chooseSchemaFile fs ((pySplitWhitespace loc).map basename) schemaDir with e | sf <;>
    simp only []
  split <;> rfl

/-- The `finally: stream.seek(origPos)` of `parseFile` restores the
stream exactly (contents never change, and the position is reset). -/
theorem parseFile_stream_eq
    (sniff : String → Option (String × Option String))
    (fs : String → Option (List String)) (sval : Option String → String → Bool)
    (pf : String → Except XErr ρ) (doValidate : Bool) (schemaDir : Option String)
    (st : Stream) :
    (parseFile sniff fs sval pf doValidate schemaDir st).2 = st := by
  unfold parseFile
  cases doValidate
  · rfl
  · simp only [if_true]
    rcases hv : validate sniff fs sval schemaDir (st.seek 0) with ⟨r, st1⟩
    have hcont : st1.content = st.content := by
      have h := validate_content sniff fs sval schemaDir (st.seek 0)
      rw [hv] at h
      exact h
    rcases r with e | u <;>
      simp only [runMainParse, Stream.seek, Stream.consume, hcont]

/-- C3: `parseFile` always restores the stream it was handed: on return
(whether with a root or with any error) the stream — in particular its
read position — equals the stream on entry. -/
theorem c3_parseFile_restores_position
    (sniff : String → Option (String × Option String))
    (fs : String → Option (List String)) (sval : Option String → String → Bool)
    (pf : String → Except XErr ρ) (doValidate : Bool) (schemaDir : Option String)
    (st : Stream) :
    (parseFile sniff fs sval pf doValidate schemaDir st).2 = st :=
  parseFile_stream_eq sniff fs sval pf doValidate schemaDir st

/-- C2 counterexample: on a stream whose entry position is 3 into the
content `"abcd"`, the main parse is handed the whole content `"abcd"`
(the source seeks to 0 first), not the suffix `"d"` that begins at the
position the caller provided, refuting the claim that the main parse
consumes input starting at the entry position. -/
theorem c2_counterexample :
    (parseFile (fun _ => none) (fun _ => none) (fun _ _ => true) Except.ok
        false none ⟨"abcd", 3⟩).1 = Except.ok "abcd" ∧
    Stream.rest ⟨"abcd", 3⟩ = "d" ∧ ("abcd" : String) ≠ "d" :=
  ⟨rfl, rfl, by decide⟩

/-- C2 amended: the main parse always consumes the content from position
0 (both without validation and, when validation succeeds, with it); the
schema-sniffing probe of `getSchemaLocationsFromStream` saves the stream
position before its read and restores it afterwards regardless of
outcome; and the entry position is restored before `parseFile` returns. -/
theorem c2_amended
    (sniff : String → Option (String × Option String))
    (fs : String → Option (List String)) (sval : Option String → String → Bool)
    (pf : String → Except XErr ρ) (schemaDir : Option String) (st : Stream) :
    (parseFile sniff fs sval pf false schemaDir st).1 = pf st.content ∧
    (getSchemaLocationsFromStream sniff st).2 = st ∧
    ((validate sniff fs sval schemaDir (st.seek 0)).1 = .ok () →
      (parseFile sniff fs sval pf true schemaDir st).1 = pf st.content) ∧
    (parseFile sniff fs sval pf false schemaDir st).2 = st := by
  refine ⟨rfl, ?_, ?_, ?_⟩
  · unfold getSchemaLocationsFromStream
    rcases sniff st.rest with _ | ⟨nm, _ | loc⟩ <;> rfl
  · intro h
    unfold parseFile
    rcases hv : validate sniff fs sval schemaDir (st.seek 0) with ⟨r, st1⟩
    rw [hv] at h
    simp only at h
    subst h
    have hcont : st1.content = st.content := by
      have := validate_content sniff fs sval schemaDir (st.seek 0)
      rw [hv] at this
      exact this
    simp only [hv, if_true, runMainParse, Stream.rest, Stream.seek, hcont,
      List.drop_zero]
  · exact parseFile_stream_eq sniff fs sval pf false schemaDir st

/-- C2 amended, witnessed at a concrete validated parse: with a schema
found and a validator that accepts, `parseFile` on the stream `"xy"`
entered at position 1 hands the full content `"xy"` to the main parse. -/
theorem c2_amended_witness :
    (parseFile (fun _ => some ("r", some "a.xsd")) (fun _ => some ["a.xsd"])
        (fun _ _ => true) Except.ok true (some "d") ⟨"xy", 1⟩).1 = Except.ok "xy" :=
  (c2_amended (fun _ => some ("r", some "a.xsd")) (fun _ => some ["a.xsd"])
    (fun _ _ => true) Except.ok (some "d") ⟨"xy", 1⟩).2.2.1 rfl

/-- C4 counterexample: constructing the node `<xml:foo/>` — the alias
`xml` used in the node's own name, no attributes — raises
`UndefinedNamespaceError` in `src/xmllib.py`, although the claim says the
undeclared alias `xml` is implicitly bound instead of raising; and in the
`api1.py` copy even an attribute alias `xml` (here `xml:lang="en"`)
raises. -/
theorem c4_counterexample :
    mkNode genericClass (some []) [] "xml:foo"
      = .error (.undefinedNamespace "xml") ∧
    mkNodeApi1 genericClass (some [("xml:lang", "en")]) [] "foo"
      = .error (.undefinedNamespace "xml") :=
  ⟨rfl, rfl⟩

/-- C1: evaluating the code at the failing input.  A parse aborted by
`InvalidXML` (tokenizer delivered `<a>` then failed) leaves the
unfinished node on the shared handler's stack; parsing `<b/>` next on
the same binder then returns `None` — the root is attached to the stale
node instead — whereas a fresh binder returns the `<b/>` node.  The
claim (each parse starts from a clean internal state) is what the code
intends — `_parse` resets `rootNode` on entry — but the stack is never
reset, so a parse following a failed one is corrupted. -/
theorem c1_stale_stack :
    (dbParse (freshHandler []) abortedInput).1 = .error .invalidXML ∧
    (dbParse (freshHandler []) abortedInput).2.stack.length = 1 ∧
    (dbParse (freshHandler []) bDocInput).1 = .ok (some (.node bDocRoot)) ∧
    (dbParse (dbParse (freshHandler []) abortedInput).2 bDocInput).1 = .ok none ∧
    (Except.ok (some (Item.node bDocRoot)) : Except XErr (Option Item)) ≠ .ok none :=
  ⟨rfl, rfl, rfl, rfl, by simp⟩

/-- Lookup after dict insertion. -/
theorem alistLookup_insert [DecidableEq κ] (k k' : κ) (v : ν) :
    ∀ l : List (κ × ν),
      alistLookup k (alistInsert k' v l) =
        if k' = k then some v else alistLookup k l
  | [] => by simp [alistInsert, alistLookup]
  | (k₀, v₀) :: rest => by
    by_cases h : k₀ = k'
    · subst h
      simp only [alistInsert, if_pos rfl, alistLookup]
      by_cases h2 : k₀ = k <;> simp [h2]
    · simp only [alistInsert, if_neg h, alistLookup]
      by_cases h2 : k₀ = k
      · subst h2
        have : ¬ k' = k₀ := fun hh => h hh.symm
        simp [this]
      · simp only [if_neg h2]
        exact alistLookup_insert k k' v rest

/-- Key membership after dict insertion. -/
theorem alistHasKey_insert [DecidableEq κ] (k k' : κ) (v : ν) (l : List (κ × ν)) :
    alistHasKey k (alistInsert k' v l) = (decide (k' = k) || alistHasKey k l) := by
  simp only [alistHasKey, alistLookup_insert]
  by_cases h : k' = k <;> simp [h]

/-- The resolvability condition of `qualifyAttrs` is unchanged by the
implicit insertion of the `xml` binding. -/
theorem cond_insert_xml (v : String) (m : NsMap) (k : Option String) :
    (k = none ∨ k = some "xml" ∨
        alistHasKey k (alistInsert (some "xml") v m) = true) ↔
      (k = none ∨ k = some "xml" ∨ alistHasKey k m = true) := by
  rcases k with _ | a
  · simp
  · by_cases ha : a = "xml"
    · simp [ha]
    · have : ¬ (some "xml" = some a) := fun h => ha (Option.some.inj h).symm
      simp [alistHasKey_insert, this, ha]

/-- The second `_setAttributes` loop of `src/xmllib.py` succeeds exactly
when every attribute alias is either absent, the conventional `xml`, or
declared in the namespace map at loop entry. -/
theorem qualifyAttrs_ok_iff :
    ∀ (l : List ((Option String × String) × String)) (m na : NsMap) (o : OtherAttrs),
      (∃ r, qualifyAttrs m na o l = .ok r) ↔
        (∀ x ∈ l, x.1.1 = none ∨ x.1.1 = some "xml" ∨ alistHasKey x.1.1 m = true)
  | [], m, na, o => by simp [qualifyAttrs]
  | ((nsName, attrName), attrVal) :: rest, m, na, o => by
    rcases nsName with _ | a
    · have hC : ¬ ((none : Option String) = some "xml" ∧
          alistHasKey (none : Option String) m = false) :=
        fun hc => Option.noConfusion hc.1
      simp only [qualifyAttrs]
      rw [if_neg hC, if_neg hC]
      refine (qualifyAttrs_ok_iff rest m na _).trans ?_
      simp
    · by_cases hxml : a = "xml"
      · subst hxml
        by_cases hk : alistHasKey (some "xml") m = true
        · have hC : ¬ (True ∧ alistHasKey (some "xml" : Option String) m = false) := by
            rintro ⟨-, hc⟩
            rw [hk] at hc
            exact Bool.noConfusion hc
          simp only [qualifyAttrs]
          rw [if_neg hC, if_neg hC, if_pos hk]
          refine (qualifyAttrs_ok_iff rest m na _).trans ?_
          simp
        · have hk' : alistHasKey (some "xml") m = false := by
            simpa using hk
          have hC : (True ∧ alistHasKey (some "xml" : Option String) m = false) :=
            ⟨trivial, hk'⟩
          have hkey : alistHasKey (some "xml")
              (alistInsert (some "xml") xmlBaseNamespace m) = true := by
            simp [alistHasKey_insert]
          simp only [qualifyAttrs]
          rw [if_pos hC, if_pos hC, if_pos hkey]
          refine (qualifyAttrs_ok_iff rest _ _ _).trans ?_
          rw [List.forall_mem_cons]
          constructor
          · intro h
            refine ⟨Or.inr (Or.inl rfl), fun x hx => ?_⟩
            exact (cond_insert_xml xmlBaseNamespace m x.1.1).mp (h x hx)
          · rintro ⟨-, h⟩ x hx
            exact (cond_insert_xml xmlBaseNamespace m x.1.1).mpr (h x hx)
      · have hC : ¬ ((some a : Option String) = some "xml" ∧
            alistHasKey (some a : Option String) m = false) :=
          fun hc => hxml (Option.some.inj hc.1)
        simp only [qualifyAttrs]
        rw [if_neg hC, if_neg hC]
        by_cases hk : alistHasKey (some a) m = true
        · rw [if_pos hk]
          refine (qualifyAttrs_ok_iff rest m na _).trans ?_
          simp [hk]
        · rw [if_neg hk]
          have hk' : alistHasKey (some a) m = false := by simpa using hk
          constructor
          · rintro ⟨r, hr⟩
            exact Except.noConfusion hr
          · intro h
            rcases h _ (List.mem_cons_self _ rest) with h1 | h1 | h1
            · exact Option.noConfusion h1
            · exact absurd (Option.some.inj h1) hxml
            · rw [hk'] at h1
              exact Bool.noConfusion h1

/-- The second `_setAttributes` loop of `api1.py` succeeds exactly when
every attribute alias is absent or declared — no `xml` exception. -/
theorem qualifyAttrsApi1_ok_iff :
    ∀ (l : List ((Option String × String) × String)) (m na : NsMap) (o : OtherAttrs),
      (∃ r, qualifyAttrsApi1 m na o l = .ok r) ↔
        (∀ x ∈ l, x.1.1 = none ∨ alistHasKey x.1.1 m = true)
  | [], m, na, o => by simp [qualifyAttrsApi1]
  | ((nsName, attrName), attrVal) :: rest, m, na, o => by
    rcases nsName with _ | a
    · simp only [qualifyAttrsApi1]
      refine (qualifyAttrsApi1_ok_iff rest m na _).trans ?_
      simp
    · by_cases hk : alistHasKey (some a) m = true
      · simp only [qualifyAttrsApi1, hk, if_pos]
        refine (qualifyAttrsApi1_ok_iff rest m na _).trans ?_
        simp [hk]
      · have hk' : alistHasKey (some a) m = false := by simpa using hk
        simp only [qualifyAttrsApi1, hk', Bool.false_eq_true,
          if_neg (by exact fun h => h)]
        constructor
        · rintro ⟨r, hr⟩
          exact Except.noConfusion hr
        · intro h
          rcases h _ (List.mem_cons_self _ rest) with h1 | h1
          · exact Option.noConfusion h1
          · rw [hk'] at h1
            exact Bool.noConfusion h1

/-- An `xml` binding present in both maps survives the rest of the
`qualifyAttrs` loop. -/
theorem qualifyAttrs_preserves_xml (v : String) :
    ∀ (l : List ((Option String × String) × String)) (m na : NsMap)
      (o : OtherAttrs) (m' na' : NsMap) (o' : OtherAttrs),
      qualifyAttrs m na o l = .ok (m', na', o') →
      alistLookup (some "xml") m = some v →
      alistLookup (some "xml") na = some v →
      alistLookup (some "xml") m' = some v ∧ alistLookup (some "xml") na' = some v
  | [], m, na, o, m', na', o' => by
    intro h hm hna
    simp only [qualifyAttrs] at h
    injection h with h
    injection h with h1 h2
    injection h2 with h2 h3
    subst h1; subst h2
    exact ⟨hm, hna⟩
  | ((nsName, attrName), attrVal) :: rest, m, na, o, m', na', o' => by
    intro h hm hna
    have hk : alistHasKey (some "xml") m = true := by simp [alistHasKey, hm]
    rcases nsName with _ | a
    · have hC : ¬ ((none : Option String) = some "xml" ∧
          alistHasKey (none : Option String) m = false) :=
        fun hc => Option.noConfusion hc.1
      simp only [qualifyAttrs] at h
      rw [if_neg hC, if_neg hC] at h
      exact qualifyAttrs_preserves_xml v rest m na _ m' na' o' h hm hna
    · by_cases hxml : a = "xml"
      · subst hxml
        have hC : ¬ (True ∧ alistHasKey (some "xml" : Option String) m = false) := by
          rintro ⟨-, hc⟩
          rw [hk] at hc
          exact Bool.noConfusion hc
        simp only [qualifyAttrs] at h
        rw [if_neg hC, if_neg hC, if_pos hk] at h
        exact qualifyAttrs_preserves_xml v rest m na _ m' na' o' h hm hna
      · have hC : ¬ ((some a : Option String) = some "xml" ∧
            alistHasKey (some a : Option String) m = false) :=
          fun hc => hxml (Option.some.inj hc.1)
        simp only [qualifyAttrs] at h
        rw [if_neg hC, if_neg hC] at h
        by_cases hka : alistHasKey (some a) m = true
        · rw [if_pos hka] at h
          exact qualifyAttrs_preserves_xml v rest m na _ m' na' o' h hm hna
        · rw [if_neg hka] at h
          exact Except.noConfusion h

/-- When the loop of `qualifyAttrs` meets an attribute with the `xml`
alias while `xml` is unbound, the implicit binding ends up in both the
namespace map and the local declarations of the constructed node. -/
theorem qualifyAttrs_xml_binding :
    ∀ (l : List ((Option String × String) × String)) (m na : NsMap)
      (o : OtherAttrs) (m' na' : NsMap) (o' : OtherAttrs),
      qualifyAttrs m na o l = .ok (m', na', o') →
      alistHasKey (some "xml") m = false →
      (∃ x ∈ l, x.1.1 = some "xml") →
      alistLookup (some "xml") m' = some xmlBaseNamespace ∧
      alistLookup (some "xml") na' = some xmlBaseNamespace
  | [], m, na, o, m', na', o' => by
    rintro h hk ⟨x, hx, -⟩
    exact absurd hx (List.not_mem_nil x)
  | ((nsName, attrName), attrVal) :: rest, m, na, o, m', na', o' => by
    rintro h hk hex
    rcases nsName with _ | a
    · have hC : ¬ ((none : Option String) = some "xml" ∧
          alistHasKey (none : Option String) m = false) :=
        fun hc => Option.noConfusion hc.1
      simp only [qualifyAttrs] at h
      rw [if_neg hC, if_neg hC] at h
      rcases hex with ⟨x, hx, hxml⟩
      rcases List.mem_cons.mp hx with rfl | hx'
      · exact Option.noConfusion hxml
      · exact qualifyAttrs_xml_binding rest m na _ m' na' o' h hk ⟨x, hx', hxml⟩
    · by_cases hxml : a = "xml"
      · subst hxml
        have hC : (True ∧ alistHasKey (some "xml" : Option String) m = false) :=
          ⟨trivial, hk⟩
        have hkey : alistHasKey (some "xml")
            (alistInsert (some "xml") xmlBaseNamespace m) = true := by
          simp [alistHasKey_insert]
        simp only [qualifyAttrs] at h
        rw [if_pos hC, if_pos hC, if_pos hkey] at h
        have hml : alistLookup (some "xml")
            (alistInsert (some "xml") xmlBaseNamespace m) = some xmlBaseNamespace := by
          simp [alistLookup_insert]
        have hnal : alistLookup (some "xml")
            (alistInsert (some "xml") xmlBaseNamespace na) = some xmlBaseNamespace := by
          simp [alistLookup_insert]
        exact qualifyAttrs_preserves_xml xmlBaseNamespace rest _ _ _ m' na' o' h hml hnal
      · have hC : ¬ ((some a : Option String) = some "xml" ∧
            alistHasKey (some a : Option String) m = false) :=
          fun hc => hxml (Option.some.inj hc.1)
        simp only [qualifyAttrs] at h
        rw [if_neg hC, if_neg hC] at h
        by_cases hka : alistHasKey (some a) m = true
        · rw [if_pos hka] at h
          rcases hex with ⟨x, hx, hx2⟩
          rcases List.mem_cons.mp hx with rfl | hx'
          · exact absurd (Option.some.inj hx2) hxml
          · exact qualifyAttrs_xml_binding rest m na _ m' na' o' h hk ⟨x, hx', hx2⟩
        · rw [if_neg hka] at h
          exact Except.noConfusion h

/-- C4 amended: in `src/xmllib.py` the second `_setAttributes` loop
succeeds exactly when every attribute alias is absent, declared, or the
conventional `xml`; when an attribute uses an undeclared `xml` alias the
implicit binding to the XML base namespace is recorded in the node's
namespace map and local declarations.  In the `api1.py` copy there is no
`xml` exception: the loop succeeds exactly when every alias is absent or
declared.  The node's own name enjoys no exception in either file:
`setName` raises `UndefinedNamespaceError` for any undeclared alias,
`xml` included (unless an attribute already triggered the binding). -/
theorem c4_amended :
    (∀ (l : List ((Option String × String) × String)) (m na : NsMap) (o : OtherAttrs),
      (∃ r, qualifyAttrs m na o l = .ok r) ↔
        (∀ x ∈ l, x.1.1 = none ∨ x.1.1 = some "xml" ∨ alistHasKey x.1.1 m = true)) ∧
    (∀ (l : List ((Option String × String) × String)) (m na : NsMap) (o : OtherAttrs),
      (∃ r, qualifyAttrsApi1 m na o l = .ok r) ↔
        (∀ x ∈ l, x.1.1 = none ∨ alistHasKey x.1.1 m = true)) ∧
    (∀ (l : List ((Option String × String) × String)) (m na : NsMap)
      (o : OtherAttrs) (m' na' : NsMap) (o' : OtherAttrs),
      qualifyAttrs m na o l = .ok (m', na', o') →
      alistHasKey (some "xml") m = false →
      (∃ x ∈ l, x.1.1 = some "xml") →
      alistLookup (some "xml") m' = some xmlBaseNamespace ∧
      alistLookup (some "xml") na' = some xmlBaseNamespace) ∧
    (∀ (m : NsMap) (name a tag : String),
      splitNamespace name = (some a, tag) → alistHasKey (some a) m = false →
      setName m name = .error (.undefinedNamespace a)) ∧
    mkNode genericClass (some [("xml:lang", "en")]) [] "xml:foo" = .ok xmlFooNode := by
  refine ⟨qualifyAttrs_ok_iff, qualifyAttrsApi1_ok_iff,
    fun l m na o m' na' o' => qualifyAttrs_xml_binding l m na o m' na' o',
    ?_, rfl⟩
  intro m name a tag hsplit hk
  simp only [setName, hsplit, hk]
  simp

/-- C4 amended, witnessed concretely: the attribute list
`xml:lang="en"` processed from an empty namespace map yields the
implicit `xml` binding, and `setName` on `"xml:foo"` over an empty map
raises `UndefinedNamespaceError("xml")`. -/
theorem c4_amended_witness :
    alistLookup (some "xml") [(some "xml", xmlBaseNamespace)] = some xmlBaseNamespace ∧
    setName [] "xml:foo" = .error (.undefinedNamespace "xml") :=
  ⟨(c4_amended.2.2.1 [((some "xml", "lang"), "en")] [] [] []
      [(some "xml", xmlBaseNamespace)] [(some "xml", xmlBaseNamespace)]
      [((some "xml", "lang"), "en")] rfl rfl
      ⟨((some "xml", "lang"), "en"), List.mem_cons_self _ _, rfl⟩).1,
   c4_amended.2.2.2.1 [] "xml:foo" "xml" "foo" rfl rfl⟩

/-- C5: no mixed content.  (1) Character data arriving when the last
child is an element is discarded; (2) character data arriving on a
trailing text run is concatenated into that run; (3) an element child
arriving on a trailing text run replaces the run by the finalized
element; (4) parsing `<node>Some text<child>X</child></node>` yields a
node whose only child is `child` with text `X`. -/
theorem c5_no_mixed_content :
    (∀ (n : Node) (it : Item) (ch : String),
      n.children.getLast? = some it → it.isStr = false → characters n ch = n) ∧
    (∀ (n : Node) (pre : List Item) (t ch : String),
      n.children = pre ++ [.str t] →
      (characters n ch).children = pre ++ [.str (t ++ ch)]) ∧
    (∀ (n c : Node) (pre : List Item) (t : String),
      n.children = pre ++ [.str t] →
      (addChild n c).children = pre ++ [finalize c]) ∧
    (dbParse (freshHandler []) mixedDocInput).1 = .ok (some (.node mixedDocRoot)) := by
  refine ⟨?_, ?_, ?_, rfl⟩
  · intro n it ch hlast hstr
    cases it <;> simp_all [characters, Item.isStr]
  · intro n pre t ch h
    simp [characters, h, List.getLast?_concat, List.dropLast_concat]
  · intro n c pre t h
    simp [addChild, h, List.getLast?_concat, List.dropLast_concat]

/-- C5 witnessed at concrete nodes: text after an element child is
dropped; consecutive text concatenates; an element replaces a trailing
text run. -/
theorem c5_no_mixed_content_witness :
    characters elemLastNode "zz" = elemLastNode ∧
    (characters textOnlyNode "b").children = [.str "ab"] ∧
    (addChild textOnlyNode mixedDocChild).children = [finalize mixedDocChild] :=
  ⟨c5_no_mixed_content.1 elemLastNode (.node mixedDocChild) "zz" rfl rfl,
   c5_no_mixed_content.2.1 textOnlyNode [] "a" "b" rfl,
   c5_no_mixed_content.2.2.1 textOnlyNode mixedDocChild [] "a" rfl⟩

/-- C10: when a node's last child is a text run, `addChild` with a child
whose tag is in the promoted `_singleChildren` set does not store the
child in the named field — the mixed-content rule runs first, replacing
the text run in the ordered children list and leaving the fields
untouched. -/
theorem c10_promotion_vs_mixed (n c : Node) (pre : List Item) (t : String)
    (hlast : n.children = pre ++ [.str t])
    (_hpromo : n.cls.singleChildren.contains (getName c) = true) :
    (addChild n c).children = pre ++ [finalize c] ∧
    (addChild n c).fields = n.fields := by
  constructor <;> simp [addChild, hlast, List.getLast?_concat, List.dropLast_concat]

/-- `find?` only looks at the predicate's values on the list's members. -/
theorem find?_congr' {p q : α → Bool} (l : List α)
    (hpq : ∀ x ∈ l, p x = q x) : l.find? p = l.find? q := by
  induction l with
  | nil => rfl
  | cons head tail ih =>
    have hh := hpq head (List.mem_cons_self head tail)
    simp only [List.find?]
    rw [hh]
    cases hq : q head
    · exact ih (fun x hx => hpq x (List.mem_cons_of_mem head hx))
    · rfl

/-- Inside `chooseSchemaFile`, testing membership in `possibleSchema`
along `schemaFiles` is the same as testing membership in the directory
listing. -/
theorem find?_possible_eq (schemaFiles localFiles : List String) :
    schemaFiles.find?
        (fun sch => decide (sch ∈ schemaFiles.filter (fun x => decide (x ∈ localFiles))))
      = schemaFiles.find? (fun sch => decide (sch ∈ localFiles)) := by
  apply find?_congr'
  intro x hx
  simp [List.mem_filter, hx]

/-- Every error `chooseSchemaFile` raises is an `UnknownSchemaError`. -/
theorem chooseSchemaFile_error_eq (fs : String → Option (List String))
    (schemaFiles : List String) (schemaDir : Option String) (e : XErr)
    (h : chooseSchemaFile fs schemaFiles schemaDir = .error e) :
    e = .unknownSchema := by
  unfold chooseSchemaFile at h
  split at h
  · exact (Except.error.inj h).symm
  · split at h
    · exact (Except.error.inj h).symm
    · simp only [] at h
      split at h
      · exact (Except.error.inj h).symm
      · split at h <;> simp at h

/-- C6: `chooseSchemaFile` (and the validation pipeline built on it)
raises `UnknownSchemaError` exactly when the schema directory argument
is absent, the directory does not exist, or no whitespace-separated
candidate basename exists in the directory; otherwise it returns the
path of the first candidate, in document order, present in the
directory.  Through `validate`, an absent `schemaLocation` attribute is
a further `UnknownSchemaError`, and with the attribute present the
validation raises `UnknownSchemaError` precisely when `chooseSchemaFile`
does on the extracted basenames. -/
theorem c6_schema_resolution (fs : String → Option (List String))
    (schemaFiles : List String) (schemaDir : Option String)
    (sniff : String → Option (String × Option String))
    (sval : Option String → String → Bool) (st : Stream) :
    (chooseSchemaFile fs schemaFiles schemaDir = .error .unknownSchema ↔
      schemaDir = none ∨
      (∃ d, schemaDir = some d ∧ fs d = none) ∨
      (∃ d lf, schemaDir = some d ∧ fs d = some lf ∧
        ∀ sch ∈ schemaFiles, sch ∉ lf)) ∧
    (∀ d lf sch, schemaDir = some d → fs d = some lf →
      schemaFiles.find? (fun x => decide (x ∈ lf)) = some sch →
      chooseSchemaFile fs schemaFiles schemaDir = .ok (some (pathJoin d sch))) ∧
    (∀ nm, sniff st.rest = some (nm, none) →
      (validate sniff fs sval schemaDir st).1 = .error .unknownSchema) ∧
    (∀ nm loc, sniff st.rest = some (nm, some loc) →
      ((validate sniff fs sval schemaDir st).1 = .error .unknownSchema ↔
        chooseSchemaFile fs ((pySplitWhitespace loc).map basename) schemaDir
          = .error .unknownSchema)) := by
  refine ⟨?_, ?_, ?_, ?_⟩
  · rcases schemaDir with _ | d
    · simp [chooseSchemaFile]
    · rcases hfs : fs d with _ | lf
      · simp [chooseSchemaFile, hfs]
      · by_cases hp : schemaFiles.filter (fun x => decide (x ∈ lf)) = []
        · simp only [chooseSchemaFile, hfs]
          rw [if_pos hp]
          refine Iff.intro (fun _ => ?_) (fun _ => rfl)
          refine Or.inr (Or.inr ⟨d, lf, rfl, hfs, fun sch hs hm => ?_⟩)
          have := List.filter_eq_nil_iff.mp hp sch hs
          simp [hm] at this
        · simp only [chooseSchemaFile, hfs]
          rw [if_neg hp, find?_possible_eq]
          have hex : ∃ x, x ∈ schemaFiles ∧ decide (x ∈ lf) = true := by
            rcases List.exists_mem_of_ne_nil _ hp with ⟨x, hx⟩
            rcases List.mem_filter.mp hx with ⟨h1, h2⟩
            exact ⟨x, h1, h2⟩
          rcases hfind : schemaFiles.find? (fun x => decide (x ∈ lf)) with _ | sch
          · rcases hex with ⟨x, hx1, hx2⟩
            have := List.find?_eq_none.mp hfind x hx1
            simp [hx2] at this
          · simp only []
            constructor
            · intro h
              exact Except.noConfusion h
            · rintro (h | ⟨d', hd', hfs'⟩ | ⟨d', lf', hd', hfs', hall⟩)
              · exact Option.noConfusion h
              · injection hd' with hdd
                subst hdd
                rw [hfs] at hfs'
                exact Option.noConfusion hfs'
              · injection hd' with hdd
                subst hdd
                rw [hfs] at hfs'
                injection hfs' with hlf
                subst hlf
                rcases hex with ⟨x, hx1, hx2⟩
                exact absurd (of_decide_eq_true hx2) (hall x hx1)
  · intro d lf sch hd hfs hfind
    subst hd
    have hmem := List.mem_of_find?_eq_some hfind
    have hsat := List.find?_some hfind
    simp only [chooseSchemaFile, hfs]
    have hne : schemaFiles.filter (fun x => decide (x ∈ lf)) ≠ [] := by
      intro hnil
      have := List.filter_eq_nil_iff.mp hnil sch hmem
      simp [of_decide_eq_true hsat] at this
    rw [if_neg hne, find?_possible_eq, hfind]
  · intro nm h
    unfold validate getSchemaLocationsFromStream
    rw [h]
  · intro nm loc h
    unfold validate getSchemaLocationsFromStream
    rw [h]
    simp only []
    rcases hc : chooseSchemaFile fs ((pySplitWhitespace loc).map basename) schemaDir
      with e | sf
    · have he := chooseSchemaFile_error_eq _ _ _ _ hc
      subst he
      simp
    · simp only []
      split <;> simp

/-- C6 witnessed: with `schemaLocation="a.xsd b.xsd"` and a directory
containing only `b.xsd`, `chooseSchemaFile` returns `d/b.xsd`; with an
absent `schemaLocation` attribute, validation fails with
`UnknownSchemaError`; with no directory supplied, `chooseSchemaFile`
fails with `UnknownSchemaError`. -/
theorem c6_schema_resolution_witness :
    chooseSchemaFile (fun _ => some ["b.xsd"]) ["a.xsd", "b.xsd"] (some "d")
      = .ok (some "d/b.xsd") ∧
    (validate (fun _ => some ("r", none)) (fun _ => some ["b.xsd"])
        (fun _ _ => true) (some "d") ⟨"<r/>", 0⟩).1 = .error .unknownSchema ∧
    chooseSchemaFile (fun _ => some ["b.xsd"]) ["a.xsd", "b.xsd"] none
      = .error .unknownSchema := by
  refine ⟨?_, ?_, ?_⟩
  · have h := (c6_schema_resolution (fun _ => some ["b.xsd"]) ["a.xsd", "b.xsd"]
      (some "d") (fun _ => some ("r", none)) (fun _ _ => true) ⟨"<r/>", 0⟩).2.1
      "d" ["b.xsd"] "b.xsd" rfl rfl (by decide)
    simpa using h
  · exact (c6_schema_resolution (fun _ => some ["b.xsd"]) ["a.xsd", "b.xsd"]
      (some "d") (fun _ => some ("r", none)) (fun _ _ => true) ⟨"<r/>", 0⟩).2.2.1
      "r" (by decide)
  · exact (c6_schema_resolution (fun _ => some ["b.xsd"]) ["a.xsd", "b.xsd"]
      none (fun _ => some ("r", none)) (fun _ _ => true) ⟨"<r/>", 0⟩).1.mpr
      (Or.inl rfl)

/-- C10 witnessed at a concrete node: `promoNode` promotes the tag
`child`, its last child is the text run `"hi"`, yet adding a `child`
element replaces the text run and leaves the promoted fields empty. -/
theorem c10_promotion_vs_mixed_witness :
    (addChild promoNode mixedDocChild).children = [finalize mixedDocChild] ∧
    (addChild promoNode mixedDocChild).fields = [] :=
  c10_promotion_vs_mixed promoNode mixedDocChild [] "hi" rfl rfl

end RpathXml
